import Mathlib

/-!
Verification development for the `smallsh` shell (src/smallsh.c).

The embedding below translates the core of `smallsh.c` into Lean:
input lines are `List Char` (the C code works on NUL-terminated `char`
buffers), the background-job table is a `List Nat` of process
identifiers (the C array `pid_t backgroundProcesses[500]`, zero
meaning a free slot), and the pieces of `main`'s dispatch loop and of
`executeCommand` that touch shared state are modelled as pure
functions that also return the text they print.
-/

namespace Smallsh

/-- Constant `MAX_NUM_BACKGROUND_PROCESSES` (smallsh.c line 16). -/
def MAX_NUM_BACKGROUND_PROCESSES : Nat := 500

/-- Constant `NULL_IO` = "/dev/null" (smallsh.c line 20), as a char list. -/
def nullDevicePath : List Char := "/dev/null".data

/-- Constant `ENTER_FOREGROUND_MODE_MESSAGE` (smallsh.c line 29). -/
def ENTER_FOREGROUND_MODE_MESSAGE : String :=
  "Entering foreground-only mode (& is now ignored)"

/-- Constant `EXIT_FOREGROUND_MODE_MESSAGE` (smallsh.c line 30). -/
def EXIT_FOREGROUND_MODE_MESSAGE : String :=
  "Exiting foreground-only mode"

/-- Constant `ENTER_FOREGROUND_MODE_MESSAGE_LENGTH` (smallsh.c line 31). -/
def ENTER_FOREGROUND_MODE_MESSAGE_LENGTH : Nat := 48

/-- Constant `EXIT_FOREGROUND_MODE_MESSAGE_LENGTH` (smallsh.c line 32). -/
def EXIT_FOREGROUND_MODE_MESSAGE_LENGTH : Nat := 28

/-- The parsed command (struct `Command`, smallsh.c lines 34-41).
`args` holds the argument vector with the program name at index 0
(the trailing NULL sentinel of the C array is implicit in the list
end); `inputFile`/`outputFile` are `none` when the corresponding
pointer is NULL; `runInBackground` is the background flag. -/
structure Command where
  args : List (List Char)
  inputFile : Option (List Char)
  outputFile : Option (List Char)
  runInBackground : Bool
deriving DecidableEq

/-- Accumulator-based tokenizer: `strtok(userInput, " ")` splits the
line on runs of spaces, producing the maximal space-free tokens in
order and never producing an empty token.  `cur` is the (reversed)
token currently being read. -/
def tokenizeAux : List Char → List Char → List (List Char)
  | [], cur => if cur = [] then [] else [cur.reverse]
  | c :: rest, cur =>
    if c = ' ' then
      if cur = [] then tokenizeAux rest []
      else cur.reverse :: tokenizeAux rest []
    else tokenizeAux rest (c :: cur)

/-- All tokens of a line, as produced by the `strtok` loop of
`parseCommand` (smallsh.c lines 305-330). -/
def tokenize (l : List Char) : List (List Char) := tokenizeAux l []

/-- The `&`-stripping prologue of `parseCommand` (smallsh.c lines
292-302): if the last character of the line is `&`, it is removed,
and the background flag is set only when foreground-only mode is off.
Returns the remaining line and the flag. -/
def stripAmp (foregroundMode : Bool) (input : List Char) : List Char × Bool :=
  if input.getLast? = some '&' then (input.dropLast, !foregroundMode)
  else (input, false)

/-- The state built up by the token-scanning loop of `parseCommand`
(smallsh.c lines 309-330): the argument vector so far and the
redirection paths seen so far. -/
structure RawParse where
  args : List (List Char)
  inputFile : Option (List Char)
  outputFile : Option (List Char)
deriving DecidableEq

/-- The token-scanning loop of `parseCommand` (smallsh.c lines
311-330): a token `"<"` consumes the next token as the input path
(overwriting any earlier one; if no token follows, the path is
overwritten with NULL, exactly as `strtok(NULL, " ")` returns NULL),
a token `">"` does the same for the output path, and any other token
is appended to the argument vector. -/
def scanTokens : List (List Char) → RawParse → RawParse
  | [], acc => acc
  | t :: rest, acc =>
    if t = "<".data then
      match rest with
      | [] => { acc with inputFile := none }
      | f :: rest2 => scanTokens rest2 { acc with inputFile := some f }
    else if t = ">".data then
      match rest with
      | [] => { acc with outputFile := none }
      | f :: rest2 => scanTokens rest2 { acc with outputFile := some f }
    else scanTokens rest { acc with args := acc.args ++ [t] }

/-- The whole token phase of `parseCommand` (smallsh.c lines
304-330): the first token becomes `args[0]` (an empty token list
models `args[0] == NULL`), the remaining tokens are scanned. -/
def rawParse (toks : List (List Char)) : RawParse :=
  match toks with
  | [] => { args := [], inputFile := none, outputFile := none }
  | t0 :: rest => scanTokens rest { args := [t0], inputFile := none, outputFile := none }

/-- The background-default epilogue of `parseCommand` (smallsh.c
lines 332-337): a background command with no input (resp. output)
redirection gets `/dev/null`. -/
def applyBackgroundDefaults (c : Command) : Command :=
  if c.runInBackground then
    { c with inputFile := some (c.inputFile.getD nullDevicePath),
             outputFile := some (c.outputFile.getD nullDevicePath) }
  else c

/-- `parseCommand` (smallsh.c lines 290-338), as a function of the
current foreground-only flag and the input line. -/
def parseCommand (foregroundMode : Bool) (input : List Char) : Command :=
  let p := stripAmp foregroundMode input
  let r := rawParse (tokenize p.1)
  applyBackgroundDefaults
    { args := r.args, inputFile := r.inputFile, outputFile := r.outputFile,
      runInBackground := p.2 }

/-- Decimal rendering of a number, as `printf`'s `%d` produces for
the non-negative values that occur here. -/
def natChars (n : Nat) : List Char := (Nat.repr n).data

/-- The glibc wait-status macro `WIFEXITED`: the low seven bits of
the status word are zero exactly for a normal exit. -/
def WIFEXITED (s : Nat) : Bool := s % 128 = 0

/-- The glibc wait-status macro `WEXITSTATUS`: bits 8-15 of the
status word. -/
def WEXITSTATUS (s : Nat) : Nat := (s / 256) % 256

/-- The glibc wait-status macro `WTERMSIG`: the low seven bits of the
status word. -/
def WTERMSIG (s : Nat) : Nat := s % 128

/-- `printStatus` (smallsh.c lines 409-420): the text printed for a
recorded wait status.  It only reads `childStatus`. -/
def printStatus (childStatus : Nat) : List Char :=
  if WIFEXITED childStatus then
    "exit value ".data ++ natChars (WEXITSTATUS childStatus) ++ ['\n']
  else
    "terminated by signal ".data ++ natChars (WTERMSIG childStatus) ++ ['\n']

/-- The shared mutable state of the shell relevant to the job table
and the `status` built-in: the global array `backgroundProcesses`
and the global `childStatus` (smallsh.c lines 44-45). -/
structure ShellState where
  table : List Nat
  childStatus : Nat
deriving DecidableEq

/-- The state at program start: C static variables are
zero-initialized, so every slot of `backgroundProcesses` is 0 and
`childStatus` is 0 (smallsh.c lines 44-45). -/
def initialShellState : ShellState :=
  { table := List.replicate MAX_NUM_BACKGROUND_PROCESSES 0, childStatus := 0 }

/-- The eviction loop in `cleanUpBackgroundProcesses` (smallsh.c
lines 356-363): zero the first slot equal to the reaped pid (the
loop breaks after the first hit). -/
def clearFirst : List Nat → Nat → List Nat
  | [], _ => []
  | a :: rest, q => if a = q then 0 :: rest else a :: clearFirst rest q

/-- Result of a reaping pass: the updated table and `childStatus`,
plus the text printed. -/
structure ReapResult where
  table : List Nat
  childStatus : Nat
  output : List Char

/-- `cleanUpBackgroundProcesses` (smallsh.c lines 344-365).  The OS
is abstracted by `reaped`, the sequence of (pid, status) pairs that
the successive `waitpid(-1, &childStatus, WNOHANG)` calls return
before returning 0 or -1: for each, `childStatus` is overwritten, a
completion line is printed (via `printStatus`), and the pid's slot
is cleared. -/
def cleanUpBackgroundProcesses (table : List Nat) (childStatus : Nat) :
    List (Nat × Nat) → ReapResult
  | [] => { table := table, childStatus := childStatus, output := [] }
  | (pid, st) :: rest =>
    let line := "background pid ".data ++ natChars pid ++ " is done: ".data ++
      printStatus st
    let r := cleanUpBackgroundProcesses (clearFirst table pid) st rest
    { table := r.table, childStatus := r.childStatus, output := line ++ r.output }

/-- The `status` branch of `main`'s dispatch followed by the
reaping pass (smallsh.c lines 120-123 and 132): print the recorded
status, then reap.  Returns the new state and the printed text. -/
def statusStep (st : ShellState) (reaped : List (Nat × Nat)) : ShellState × List Char :=
  let out := printStatus st.childStatus
  let r := cleanUpBackgroundProcesses st.table st.childStatus reaped
  ({ table := r.table, childStatus := r.childStatus }, out ++ r.output)

/-- `killBackgroundProcesses` (smallsh.c lines 370-384): a `SIGKILL`
is sent to the pid in every occupied slot.  The function returns the
list of pids signalled; note that it does not modify the array. -/
def killBackgroundProcesses (table : List Nat) : List Nat :=
  table.filter (fun p => p != 0)

/-- The slot-search loop of `executeCommand`'s parent branch
(smallsh.c line 464): `while (backgroundProcesses[it] && it < MAX)
it++`.  Note the C condition reads the array cell before checking
the bound, so on a full table it reads index 500 one past the end;
the model treats that out-of-range read as 0, which is the value the
guard order was intended to observe, so the loop stops with the
iterator equal to the table length. -/
def firstFreeSlotAux : List Nat → Nat → Nat
  | [], i => i
  | a :: rest, i =>
    if a ≠ 0 ∧ i < MAX_NUM_BACKGROUND_PROCESSES then firstFreeSlotAux rest (i + 1)
    else i

/-- Index of the first free slot of the table (see
`firstFreeSlotAux`). -/
def firstFreeSlot (table : List Nat) : Nat := firstFreeSlotAux table 0

/-- The message `"background pid is %d\n"` (smallsh.c line 477). -/
def backgroundPidMessage (pid : Nat) : List Char :=
  "background pid is ".data ++ natChars pid ++ ['\n']

/-- Result of registering a background child: the updated table,
whether the table-full "pressure valve" fired, the pids that were
sent `SIGKILL` by it, and the text printed. -/
structure SpawnResult where
  table : List Nat
  valveFired : Bool
  killed : List Nat
  output : List Char
deriving DecidableEq

/-- The background-registration block of `executeCommand`'s parent
branch (smallsh.c lines 461-479): scan for the first free slot; if
none is free, call `killBackgroundProcesses` (which signals every
recorded job but leaves the slots untouched) and reset the iterator
to 0; store the child's pid in the chosen slot; print the pid. -/
def registerBackgroundProcess (table : List Nat) (spawnPid : Nat) : SpawnResult :=
  let i := firstFreeSlot table
  if i = MAX_NUM_BACKGROUND_PROCESSES then
    { table := table.set 0 spawnPid, valveFired := true,
      killed := killBackgroundProcesses table,
      output := backgroundPidMessage spawnPid }
  else
    { table := table.set i spawnPid, valveFired := false, killed := [],
      output := backgroundPidMessage spawnPid }

/-- `handle_SIGTSTP` (smallsh.c lines 214-239): from the current
foreground-only flag, the handler picks the message and its byte
count, toggles the flag (`foregroundMode ^= 1`), and writes a
newline, the first `n` bytes of the message, and a newline.  Returns
the new flag and the bytes written. -/
def handle_SIGTSTP (foregroundMode : Bool) : Bool × List Char :=
  let message := if foregroundMode then EXIT_FOREGROUND_MODE_MESSAGE.data
    else ENTER_FOREGROUND_MODE_MESSAGE.data
  let n := if foregroundMode then EXIT_FOREGROUND_MODE_MESSAGE_LENGTH
    else ENTER_FOREGROUND_MODE_MESSAGE_LENGTH
  (!foregroundMode, '\n' :: (message.take n ++ ['\n']))

/-- Outcome of the child branch of `executeCommand` when it
terminates in the child itself: its exit code and what it printed to
stderr. -/
structure ChildTermination where
  exitCode : Nat
  errOutput : List Char
deriving DecidableEq

/-- The failure tail of the child branch of `executeCommand`
(smallsh.c lines 448-452): when `execvp` fails, the child prints
`"%s: %s\n"` with the program name and the system error text
(`strerror(errno)`, abstracted as `errText`) and calls `exit(1)`. -/
def execFailureChild (c : Command) (errText : List Char) : ChildTermination :=
  { exitCode := 1,
    errOutput := c.args.headD [] ++ ": ".data ++ errText ++ ['\n'] }

/-- The externally visible steps `main` takes for one input line
(see `dispatchActions`). -/
inductive Action where
  | reap
  | killAll
  | chdir (path : Option (List Char))
  | printStatus
  | execute (c : Command)
deriving DecidableEq

/-- The dispatch skeleton of `main`'s loop body (smallsh.c lines
90-135): parse the line, then branch on the first argument — blank
or comment lines only reap (lines 96-102); `exit` kills all
background jobs and leaves the loop (lines 105-111); `cd`, `status`
and external commands perform their effect and then reap (lines
114-133).  Returns the actions in order and whether the loop
continues. -/
def dispatchActions (foregroundMode : Bool) (input : List Char) :
    List Action × Bool :=
  let c := parseCommand foregroundMode input
  match c.args.head? with
  | none => ([Action.reap], true)
  | some a =>
    if a.head? = some '#' then ([Action.reap], true)
    else if a = "exit".data then ([Action.killAll], false)
    else if a = "cd".data then ([Action.chdir (c.args.get? 1), Action.reap], true)
    else if a = "status".data then ([Action.printStatus, Action.reap], true)
    else ([Action.execute c, Action.reap], true)

/-- The job-table invariant of the spec: a slot is either 0 (free)
or holds one background pid, and no pid occupies two slots — i.e.
the nonzero entries are pairwise distinct. -/
def tableInvariant (table : List Nat) : Prop :=
  (table.filter (fun p => p != 0)).Nodup

instance (table : List Nat) : Decidable (tableInvariant table) := by
  unfold tableInvariant; infer_instance

end Smallsh

namespace Smallsh

/-! ### Helper lemmas -/

lemma applyBackgroundDefaults_args (c : Command) :
    (applyBackgroundDefaults c).args = c.args := by
  unfold applyBackgroundDefaults; split <;> rfl

lemma applyBackgroundDefaults_flag (c : Command) :
    (applyBackgroundDefaults c).runInBackground = c.runInBackground := by
  unfold applyBackgroundDefaults; split <;> rfl

lemma parseCommand_args (fg : Bool) (input : List Char) :
    (parseCommand fg input).args = (rawParse (tokenize (stripAmp fg input).1)).args := by
  simp [parseCommand, applyBackgroundDefaults_args]

lemma parseCommand_flag (fg : Bool) (input : List Char) :
    (parseCommand fg input).runInBackground = (stripAmp fg input).2 := by
  simp [parseCommand, applyBackgroundDefaults_flag]

lemma stripAmp_concat_amp (fg : Bool) (l : List Char) :
    stripAmp fg (l ++ ['&']) = (l, !fg) := by
  simp [stripAmp, List.getLast?_concat, List.dropLast_concat]

/-! ### Claim theorems (parsing, handler, status) -/

/-- Claim C3: parsing the line `ls -l < in.txt > out.txt &` with
foreground-only mode off yields program/args `["ls", "-l"]`, input
path `in.txt`, output path `out.txt`, and the background flag set. -/
theorem claim_c3 :
    parseCommand false "ls -l < in.txt > out.txt &".data =
      { args := ["ls".data, "-l".data], inputFile := some "in.txt".data,
        outputFile := some "out.txt".data, runInBackground := true } := by
  decide

/-- Claim C4: for every input line whose last character is `&`,
parsing with foreground-only mode on yields `runInBackground =
false`, parsing with the mode off yields `runInBackground = true`,
and in both modes the `&` is removed before tokenizing, so the
argument vector is exactly the one obtained from the line without
its final `&`. -/
theorem claim_c4 (l : List Char) :
    (parseCommand true (l ++ ['&'])).runInBackground = false
  ∧ (parseCommand false (l ++ ['&'])).runInBackground = true
  ∧ (parseCommand true (l ++ ['&'])).args = (rawParse (tokenize l)).args
  ∧ (parseCommand false (l ++ ['&'])).args = (rawParse (tokenize l)).args := by
  refine ⟨?_, ?_, ?_, ?_⟩ <;>
    simp [parseCommand_flag, parseCommand_args, stripAmp_concat_amp]

/-- Claim C5: for every parsed command with the background flag set,
an input/output path left unset by the redirection scan defaults to
`/dev/null` while a path set by a redirection token is kept; with
the flag clear the paths are exactly those of the redirection scan,
with no defaults. -/
theorem claim_c5 (fg : Bool) (input : List Char) :
    ((parseCommand fg input).runInBackground = true →
        ((rawParse (tokenize (stripAmp fg input).1)).inputFile = none →
          (parseCommand fg input).inputFile = some nullDevicePath)
      ∧ ((rawParse (tokenize (stripAmp fg input).1)).outputFile = none →
          (parseCommand fg input).outputFile = some nullDevicePath)
      ∧ (∀ f, (rawParse (tokenize (stripAmp fg input).1)).inputFile = some f →
          (parseCommand fg input).inputFile = some f)
      ∧ (∀ f, (rawParse (tokenize (stripAmp fg input).1)).outputFile = some f →
          (parseCommand fg input).outputFile = some f))
  ∧ ((parseCommand fg input).runInBackground = false →
        (parseCommand fg input).inputFile =
          (rawParse (tokenize (stripAmp fg input).1)).inputFile
      ∧ (parseCommand fg input).outputFile =
          (rawParse (tokenize (stripAmp fg input).1)).outputFile) := by
  have hflag := parseCommand_flag fg input
  have hin : (parseCommand fg input).inputFile =
      (if (stripAmp fg input).2 = true then
        some ((rawParse (tokenize (stripAmp fg input).1)).inputFile.getD nullDevicePath)
      else (rawParse (tokenize (stripAmp fg input).1)).inputFile) := by
    simp only [parseCommand, applyBackgroundDefaults]
    split <;> simp_all
  have hout : (parseCommand fg input).outputFile =
      (if (stripAmp fg input).2 = true then
        some ((rawParse (tokenize (stripAmp fg input).1)).outputFile.getD nullDevicePath)
      else (rawParse (tokenize (stripAmp fg input).1)).outputFile) := by
    simp only [parseCommand, applyBackgroundDefaults]
    split <;> simp_all
  constructor
  · intro hbg
    rw [hflag] at hbg
    simp [hbg] at hin hout
    refine ⟨fun hc => ?_, fun hc => ?_, fun f hf => ?_, fun f hf => ?_⟩
    · simp [hin, hc]
    · simp [hout, hc]
    · simp [hin, hf]
    · simp [hout, hf]
  · intro hbg
    rw [hflag] at hbg
    simp [hbg] at hin hout
    exact ⟨hin, hout⟩

/-- Witness for claim C5: `sleep 5 &` gets both `/dev/null` defaults,
and an explicitly redirected output of a background command is kept. -/
theorem claim_c5_witness :
    (parseCommand false "sleep 5 &".data).runInBackground = true
  ∧ (parseCommand false "sleep 5 &".data).inputFile = some nullDevicePath
  ∧ (parseCommand false "sleep 5 &".data).outputFile = some nullDevicePath
  ∧ (parseCommand false "ls > out.txt &".data).outputFile = some "out.txt".data := by
  refine ⟨by decide, ?_, ?_, ?_⟩
  · exact ((claim_c5 false "sleep 5 &".data).1 (by decide)).1 (by decide)
  · exact ((claim_c5 false "sleep 5 &".data).1 (by decide)).2.1 (by decide)
  · exact ((claim_c5 false "ls > out.txt &".data).1 (by decide)).2.2.2
      "out.txt".data (by decide)

/-- Claim C8: each delivery of `SIGTSTP` flips the foreground-only
flag exactly once (so two deliveries restore it), and the handler
writes exactly the entering/exiting notices, whose `#define`d byte
counts equal the true message lengths. -/
theorem claim_c8 : ∀ fg : Bool,
    (handle_SIGTSTP fg).1 = !fg
  ∧ (handle_SIGTSTP (handle_SIGTSTP fg).1).1 = fg
  ∧ (handle_SIGTSTP false).2 =
      "\nEntering foreground-only mode (& is now ignored)\n".data
  ∧ (handle_SIGTSTP true).2 = "\nExiting foreground-only mode\n".data
  ∧ ENTER_FOREGROUND_MODE_MESSAGE_LENGTH = ENTER_FOREGROUND_MODE_MESSAGE.data.length
  ∧ EXIT_FOREGROUND_MODE_MESSAGE_LENGTH = EXIT_FOREGROUND_MODE_MESSAGE.data.length := by
  decide

/-- Claim C9: the `status` built-in prints the recorded status in
exactly the form `exit value N` for a normal exit and `terminated by
signal N` otherwise, and it does not modify the state, so two
consecutive `status` commands (with no intervening reap) print the
same message. -/
theorem claim_c9 :
    (∀ st : ShellState,
        (statusStep st []).1 = st
      ∧ (statusStep st []).2 = printStatus st.childStatus
      ∧ (statusStep (statusStep st []).1 []).2 = (statusStep st []).2)
  ∧ (∀ s, WIFEXITED s = true →
      printStatus s = "exit value ".data ++ natChars (WEXITSTATUS s) ++ ['\n'])
  ∧ (∀ s, WIFEXITED s = false →
      printStatus s = "terminated by signal ".data ++ natChars (WTERMSIG s) ++ ['\n']) := by
  refine ⟨fun st => ⟨?_, ?_, ?_⟩, fun s hs => ?_, fun s hs => ?_⟩
  · cases st
    simp [statusStep, cleanUpBackgroundProcesses]
  · simp [statusStep, cleanUpBackgroundProcesses]
  · simp [statusStep, cleanUpBackgroundProcesses]
  · simp [printStatus, hs]
  · simp [printStatus, hs]

/-- Witness for claim C9: concrete statuses 0 (normal exit) and 9
(signal termination), and a concrete state left unchanged. -/
theorem claim_c9_witness :
    WIFEXITED 0 = true
  ∧ printStatus 0 = "exit value ".data ++ natChars (WEXITSTATUS 0) ++ ['\n']
  ∧ WIFEXITED 9 = false
  ∧ printStatus 9 = "terminated by signal ".data ++ natChars (WTERMSIG 9) ++ ['\n']
  ∧ (statusStep { table := [7, 0], childStatus := 256 } []).1 =
      { table := [7, 0], childStatus := 256 } := by
  exact ⟨by decide, claim_c9.2.1 0 (by decide), by decide, claim_c9.2.2 9 (by decide),
    (claim_c9.1 { table := [7, 0], childStatus := 256 }).1⟩

/-- Claim C10: in a freshly started shell the status record is
zero-initialized, 0 is classified as a normal exit with code 0, and
the `status` built-in prints `exit value 0`. -/
theorem claim_c10 :
    (statusStep initialShellState []).2 = "exit value 0\n".data
  ∧ WIFEXITED initialShellState.childStatus = true
  ∧ WEXITSTATUS initialShellState.childStatus = 0 := by
  refine ⟨by decide, by decide, by decide⟩

/-! ### Job-table invariant lemmas -/

lemma nodup_filterNonzero_tail {a : Nat} {l : List Nat}
    (h : ((a :: l).filter (fun p => p != 0)).Nodup) :
    (l.filter (fun p => p != 0)).Nodup := by
  rw [List.filter_cons] at h
  by_cases ha : a = 0
  · simpa [ha] using h
  · rw [if_pos (by simpa using ha)] at h
    exact (List.nodup_cons.mp h).2

lemma mem_clearFirst {t : List Nat} {q x : Nat} (h : x ∈ clearFirst t q) :
    x ∈ t ∨ x = 0 := by
  induction t with
  | nil => simp [clearFirst] at h
  | cons a rest ih =>
    by_cases ha : a = q
    · rw [clearFirst, if_pos ha] at h
      rcases List.mem_cons.mp h with h0 | hrest
      · exact Or.inr h0
      · exact Or.inl (List.mem_cons_of_mem a hrest)
    · rw [clearFirst, if_neg ha] at h
      rcases List.mem_cons.mp h with h0 | hrest
      · exact Or.inl (h0 ▸ List.mem_cons_self a rest)
      · rcases ih hrest with hm | h0
        · exact Or.inl (List.mem_cons_of_mem a hm)
        · exact Or.inr h0

lemma tableInvariant_clearFirst (t : List Nat) (q : Nat) (h : tableInvariant t) :
    tableInvariant (clearFirst t q) := by
  induction t with
  | nil => exact h
  | cons a rest ih =>
    unfold tableInvariant at *
    by_cases ha : a = q
    · rw [clearFirst, if_pos ha]
      simpa using nodup_filterNonzero_tail h
    · rw [clearFirst, if_neg ha, List.filter_cons]
      by_cases h0 : a = 0
      · simpa [h0] using ih (nodup_filterNonzero_tail h)
      · rw [if_pos (by simpa using h0)]
        refine List.nodup_cons.mpr ⟨?_, ih (nodup_filterNonzero_tail h)⟩
        intro hmem
        have hmem' := (List.mem_filter.mp hmem).1
        rcases mem_clearFirst hmem' with hrest | hz
        · rw [List.filter_cons, if_pos (by simpa using h0)] at h
          exact (List.nodup_cons.mp h).1 (List.mem_filter.mpr ⟨hrest, by simpa using h0⟩)
        · exact h0 hz

lemma tableInvariant_set (t : List Nat) (i p : Nat) (h : tableInvariant t)
    (hp : p ∉ t) : tableInvariant (t.set i p) := by
  induction t generalizing i with
  | nil => exact h
  | cons a rest ih =>
    unfold tableInvariant at *
    cases i with
    | zero =>
      rw [List.set_cons_zero, List.filter_cons]
      by_cases h0 : p = 0
      · simpa [h0] using nodup_filterNonzero_tail h
      · rw [if_pos (by simpa using h0)]
        refine List.nodup_cons.mpr ⟨?_, nodup_filterNonzero_tail h⟩
        intro hmem
        exact hp (List.mem_cons_of_mem a (List.mem_filter.mp hmem).1)
    | succ j =>
      rw [List.set_cons_succ, List.filter_cons]
      have hprest : p ∉ rest := fun hm => hp (List.mem_cons_of_mem a hm)
      by_cases h0 : a = 0
      · simpa [h0] using ih j (nodup_filterNonzero_tail h) hprest
      · rw [if_pos (by simpa using h0)]
        refine List.nodup_cons.mpr ⟨?_, ih j (nodup_filterNonzero_tail h) hprest⟩
        intro hmem
        rcases List.mem_or_eq_of_mem_set (List.mem_filter.mp hmem).1 with hrest | hpa
        · rw [List.filter_cons, if_pos (by simpa using h0)] at h
          exact (List.nodup_cons.mp h).1 (List.mem_filter.mpr ⟨hrest, by simpa using h0⟩)
        · exact hp (hpa ▸ List.mem_cons_self a rest)

lemma tableInvariant_cleanUp (reaped : List (Nat × Nat)) :
    ∀ (t : List Nat) (cs : Nat), tableInvariant t →
      tableInvariant (cleanUpBackgroundProcesses t cs reaped).table := by
  induction reaped with
  | nil => intro t cs h; exact h
  | cons pr rest ih =>
    intro t cs h
    cases pr with
    | mk pid st =>
      exact ih (clearFirst t pid) st (tableInvariant_clearFirst t pid h)

/-- Claim C2: each slot of the job table is either zero (free) or
one background pid, and no pid occupies two slots (the nonzero
entries are pairwise distinct); this invariant is preserved by the
insert performed on background spawn (for a fresh nonzero pid,
including the pressure-valve path) and by the slot-clearing performed
on reap, both for a single eviction and for a whole reaping pass. -/
theorem claim_c2 (t : List Nat) (pid q cs : Nat) (reaped : List (Nat × Nat))
    (hinv : tableInvariant t) (hpid : pid ≠ 0) (hfresh : pid ∉ t) :
    tableInvariant (registerBackgroundProcess t pid).table
  ∧ tableInvariant (clearFirst t q)
  ∧ tableInvariant (cleanUpBackgroundProcesses t cs reaped).table := by
  refine ⟨?_, tableInvariant_clearFirst t q hinv, tableInvariant_cleanUp reaped t cs hinv⟩
  simp only [registerBackgroundProcess]
  split <;> exact tableInvariant_set t _ pid hinv hfresh

/-- Witness for claim C2: a concrete table with a free slot, a fresh
pid inserted, a slot cleared, and a reaping pass. -/
theorem claim_c2_witness :
    tableInvariant ([5, 0, 3] : List Nat) ∧ (7 : Nat) ≠ 0 ∧ (7 : Nat) ∉ ([5, 0, 3] : List Nat)
  ∧ tableInvariant (registerBackgroundProcess [5, 0, 3] 7).table
  ∧ tableInvariant (clearFirst [5, 0, 3] 5)
  ∧ tableInvariant (cleanUpBackgroundProcesses [5, 0, 3] 0 [(3, 0)]).table := by
  refine ⟨by decide, by decide, by decide, ?_, ?_, ?_⟩
  · exact (claim_c2 [5, 0, 3] 7 5 0 [(3, 0)] (by decide) (by decide) (by decide)).1
  · exact (claim_c2 [5, 0, 3] 7 5 0 [(3, 0)] (by decide) (by decide) (by decide)).2.1
  · exact (claim_c2 [5, 0, 3] 7 5 0 [(3, 0)] (by decide) (by decide) (by decide)).2.2

/-! ### Pressure-valve lemmas -/

lemma firstFreeSlotAux_full : ∀ (t : List Nat) (i : Nat), (∀ a ∈ t, a ≠ 0) →
    i + t.length ≤ MAX_NUM_BACKGROUND_PROCESSES → firstFreeSlotAux t i = i + t.length := by
  intro t
  induction t with
  | nil => intro i _ _; simp [firstFreeSlotAux]
  | cons a rest ih =>
    intro i hall hle
    have ha : a ≠ 0 := hall a (List.mem_cons_self a rest)
    have hi : i < MAX_NUM_BACKGROUND_PROCESSES := by
      simp only [List.length_cons] at hle; omega
    rw [firstFreeSlotAux, if_pos ⟨ha, hi⟩,
      ih (i + 1) (fun x hx => hall x (List.mem_cons_of_mem a hx)) (by simp at hle ⊢; omega)]
    simp; omega

lemma firstFreeSlot_of_full (t : List Nat)
    (hlen : t.length = MAX_NUM_BACKGROUND_PROCESSES) (hfull : ∀ a ∈ t, a ≠ 0) :
    firstFreeSlot t = MAX_NUM_BACKGROUND_PROCESSES := by
  rw [firstFreeSlot, firstFreeSlotAux_full t 0 hfull (by omega)]
  omega

lemma getD_set_zero (t : List Nat) (p : Nat) (h : t ≠ []) :
    (t.set 0 p).getD 0 0 = p := by
  cases t with
  | nil => exact absurd rfl h
  | cons a rest => rfl

lemma range_one_to_500_full : ∀ a ∈ List.range' 1 500, a ≠ 0 := by
  intro a ha
  rw [List.mem_range'] at ha
  omega

/-- Claim C1 (amended): when a background child is registered and
every one of the 500 job-table slots is occupied, the launcher sends
`SIGKILL` to every recorded job but does not clear their slots; it
then stores the new child's pid in slot zero, overwriting the old
entry there, so slots 1..499 still hold the identifiers of the
killed jobs (they are cleared only when later reaped); in every case
the assigned identifier is printed. -/
theorem claim_c1_amended (t : List Nat) (pid : Nat)
    (hlen : t.length = MAX_NUM_BACKGROUND_PROCESSES) (hfull : ∀ a ∈ t, a ≠ 0) :
    (registerBackgroundProcess t pid).valveFired = true
  ∧ (registerBackgroundProcess t pid).killed = t
  ∧ (registerBackgroundProcess t pid).table = t.set 0 pid
  ∧ (registerBackgroundProcess t pid).table.getD 0 0 = pid
  ∧ (∀ (t' : List Nat) (pid' : Nat),
      (registerBackgroundProcess t' pid').output = backgroundPidMessage pid') := by
  have hff := firstFreeSlot_of_full t hlen hfull
  have hne : t ≠ [] := by
    intro h0
    rw [h0] at hlen
    simp [MAX_NUM_BACKGROUND_PROCESSES] at hlen
  have hkill : killBackgroundProcesses t = t := by
    rw [killBackgroundProcesses, List.filter_eq_self]
    intro a ha
    simpa using hfull a ha
  refine ⟨?_, ?_, ?_, ?_, ?_⟩
  · simp [registerBackgroundProcess, hff]
  · simp [registerBackgroundProcess, hff, hkill]
  · simp [registerBackgroundProcess, hff]
  · simp only [registerBackgroundProcess, hff, if_pos]
    exact getD_set_zero t pid hne
  · intro t' pid'
    simp only [registerBackgroundProcess]
    split <;> rfl

/-- Witness for claim C1 (amended): the concrete full table holding
pids 1..500 and a new child pid 777. -/
theorem claim_c1_witness :
    (List.range' 1 500).length = MAX_NUM_BACKGROUND_PROCESSES
  ∧ (∀ a ∈ List.range' 1 500, a ≠ 0)
  ∧ (registerBackgroundProcess (List.range' 1 500) 777).valveFired = true
  ∧ (registerBackgroundProcess (List.range' 1 500) 777).killed = List.range' 1 500 := by
  have h1 : (List.range' 1 500).length = MAX_NUM_BACKGROUND_PROCESSES := by
    simp [MAX_NUM_BACKGROUND_PROCESSES]
  refine ⟨h1, range_one_to_500_full, ?_, ?_⟩
  · exact (claim_c1_amended (List.range' 1 500) 777 h1 range_one_to_500_full).1
  · exact (claim_c1_amended (List.range' 1 500) 777 h1 range_one_to_500_full).2.1

/-- Counterexample to claim C1 as stated: with the full table holding
pids 1..500 and new child 777, the pressure valve fires and slot
zero receives 777, but slot one still holds the old pid 2, so it is
not the case that every slot other than slot zero is empty
afterwards. -/
theorem claim_c1_counterexample :
    (registerBackgroundProcess (List.range' 1 500) 777).valveFired = true
  ∧ (registerBackgroundProcess (List.range' 1 500) 777).table.getD 0 0 = 777
  ∧ (registerBackgroundProcess (List.range' 1 500) 777).table.getD 1 0 = 2
  ∧ ¬ (∀ j, 1 ≤ j → j < MAX_NUM_BACKGROUND_PROCESSES →
        (registerBackgroundProcess (List.range' 1 500) 777).table.getD j 0 = 0) := by
  have h1 : (List.range' 1 500).length = MAX_NUM_BACKGROUND_PROCESSES := by
    simp [MAX_NUM_BACKGROUND_PROCESSES]
  have hff := firstFreeSlot_of_full (List.range' 1 500) h1 range_one_to_500_full
  have htab : (registerBackgroundProcess (List.range' 1 500) 777).table =
      (List.range' 1 500).set 0 777 := by
    simp [registerBackgroundProcess, hff]
  have hr2 : List.range' 1 500 = 1 :: 2 :: List.range' 3 498 := by
    rw [show (500 : Nat) = 498 + 1 + 1 from rfl, List.range'_succ, List.range'_succ]
  have hslot1 : (registerBackgroundProcess (List.range' 1 500) 777).table.getD 1 0 = 2 := by
    rw [htab, hr2]
    rfl
  refine ⟨?_, ?_, hslot1, fun hall => ?_⟩
  · simp [registerBackgroundProcess, hff]
  · rw [htab, hr2]; rfl
  · have h2 := hall 1 (by omega) (by simp [MAX_NUM_BACKGROUND_PROCESSES])
    rw [hslot1] at h2
    exact absurd h2 (by omega)

/-- Claim C7: when the exec replacement fails, the child prints the
program name together with the system error text in the form
`program: error\n` and terminates with the non-zero status 1; and
whenever the dispatch loop launches an external command, the loop
continues (the launch never ends the parent shell, whatever the
child does). -/
theorem claim_c7 :
    (∀ (c : Command) (errText : List Char),
        (execFailureChild c errText).exitCode = 1
      ∧ (execFailureChild c errText).exitCode ≠ 0
      ∧ (execFailureChild c errText).errOutput =
          c.args.headD [] ++ ": ".data ++ errText ++ ['\n'])
  ∧ (∀ (fg : Bool) (input : List Char) (c : Command),
      Action.execute c ∈ (dispatchActions fg input).1 →
      (dispatchActions fg input).2 = true) := by
  refine ⟨fun c errText => ⟨rfl, by simp [execFailureChild], rfl⟩, fun fg input c h => ?_⟩
  simp only [dispatchActions] at h ⊢
  rcases hhd : (parseCommand fg input).args.head? with _ | a
  · simp [hhd] at h ⊢
  · simp only [hhd] at h ⊢
    split_ifs at h ⊢ <;> simp_all

/-- Witness for claim C7: the concrete line `foo` is dispatched as
an external command and the loop continues; a failed exec of it
exits with code 1 and prints `foo: No such file or directory`. -/
theorem claim_c7_witness :
    Action.execute (parseCommand false "foo".data) ∈ (dispatchActions false "foo".data).1
  ∧ (dispatchActions false "foo".data).2 = true
  ∧ (execFailureChild (parseCommand false "foo".data)
      "No such file or directory".data).exitCode = 1
  ∧ (execFailureChild (parseCommand false "foo".data)
      "No such file or directory".data).errOutput =
      "foo: No such file or directory\n".data := by
  refine ⟨by decide, ?_, ?_, by decide⟩
  · exact claim_c7.2 false "foo".data (parseCommand false "foo".data) (by decide)
  · exact (claim_c7.1 (parseCommand false "foo".data) "No such file or directory".data).1

/-! ### Tokenizer lemmas -/

lemma tokenize_all_spaces : ∀ (l : List Char), (∀ c ∈ l, c = ' ') → tokenize l = [] := by
  intro l
  induction l with
  | nil => intro _; rfl
  | cons c r ih =>
    intro h
    have hc : c = ' ' := h c (List.mem_cons_self c r)
    simp only [tokenize, tokenizeAux, if_pos hc, if_pos rfl]
    exact ih (fun x hx => h x (List.mem_cons_of_mem c hx))

lemma tokenizeAux_emit : ∀ (rest cur : List Char), cur ≠ [] →
    ∃ ts, tokenizeAux rest cur =
      (cur.reverse ++ rest.takeWhile (fun x => x != ' ')) :: ts := by
  intro rest
  induction rest with
  | nil =>
    intro cur hcur
    exact ⟨[], by simp [tokenizeAux, hcur]⟩
  | cons c r ih =>
    intro cur hcur
    by_cases hc : c = ' '
    · refine ⟨tokenizeAux r [], ?_⟩
      simp only [tokenizeAux, if_pos hc, if_neg hcur]
      simp [List.takeWhile_cons, hc]
    · obtain ⟨ts, hts⟩ := ih (c :: cur) (by simp)
      refine ⟨ts, ?_⟩
      simp only [tokenizeAux, if_neg hc]
      rw [hts]
      simp [List.takeWhile_cons, hc]

lemma tokenize_first_token : ∀ (l t : List Char) (ts : List (List Char)),
    tokenize l = t :: ts →
    ∃ c rest', l.dropWhile (fun x => x == ' ') = c :: rest'
      ∧ t = c :: rest'.takeWhile (fun x => x != ' ') := by
  intro l
  induction l with
  | nil => intro t ts h; simp [tokenize, tokenizeAux] at h
  | cons c r ih =>
    intro t ts h
    by_cases hc : c = ' '
    · simp only [tokenize, tokenizeAux, if_pos hc, if_pos rfl] at h
      obtain ⟨d, rest', hd, ht⟩ := ih t ts h
      exact ⟨d, rest', by simp [List.dropWhile_cons, hc, hd], ht⟩
    · obtain ⟨ts', hts'⟩ := tokenizeAux_emit r [c] (by simp)
      simp only [tokenize, tokenizeAux, if_neg hc] at h
      rw [hts'] at h
      injection h with h1 h2
      exact ⟨c, r, by simp [List.dropWhile_cons, hc], by simp [← h1]⟩

lemma tokenize_of_dropWhile : ∀ (l : List Char) (c : Char) (rest' : List Char),
    l.dropWhile (fun x => x == ' ') = c :: rest' →
    ∃ ts, tokenize l = (c :: rest'.takeWhile (fun x => x != ' ')) :: ts := by
  intro l
  induction l with
  | nil => intro c rest' h; simp at h
  | cons d r ih =>
    intro c rest' h
    rw [List.dropWhile_cons] at h
    by_cases hd : d = ' '
    · simp only [hd, beq_self_eq_true, if_pos] at h
      obtain ⟨ts, hts⟩ := ih c rest' h
      refine ⟨ts, ?_⟩
      simp only [tokenize, tokenizeAux, if_pos hd, if_pos rfl]
      exact hts
    · simp only [show (d == ' ') = false by simpa using hd, Bool.false_eq_true,
        if_false, List.cons.injEq] at h
      obtain ⟨rfl, rfl⟩ := h
      obtain ⟨ts, hts⟩ := tokenizeAux_emit r [d] (by simp)
      refine ⟨ts, ?_⟩
      simp only [tokenize, tokenizeAux, if_neg hd]
      rw [hts]
      simp

lemma dropWhile_spaces_append (pre l : List Char) (hpre : ∀ c ∈ pre, c = ' ') :
    (pre ++ l).dropWhile (fun x => x == ' ') = l.dropWhile (fun x => x == ' ') := by
  induction pre with
  | nil => rfl
  | cons a rest ih =>
    have ha : a = ' ' := hpre a (List.mem_cons_self a rest)
    rw [List.cons_append, List.dropWhile_cons]
    simp only [ha, beq_self_eq_true, if_pos]
    exact ih (fun c hc => hpre c (List.mem_cons_of_mem a hc))

lemma scanTokens_args_head : ∀ (n : Nat) (ts : List (List Char)) (acc : RawParse)
    (a : List Char) (r : List (List Char)), ts.length ≤ n → acc.args = a :: r →
    ∃ r2, (scanTokens ts acc).args = a :: r2 := by
  intro n
  induction n with
  | zero =>
    intro ts acc a r hlen hacc
    have hts : ts = [] := List.eq_nil_of_length_eq_zero (Nat.le_zero.mp hlen)
    subst hts
    exact ⟨r, hacc⟩
  | succ n ih =>
    intro ts acc a r hlen hacc
    cases ts with
    | nil => exact ⟨r, hacc⟩
    | cons t rest =>
      rw [scanTokens.eq_def]
      dsimp only
      split_ifs with h1 h2
      · cases rest with
        | nil => exact ⟨r, hacc⟩
        | cons f rest2 =>
          exact ih rest2 _ a r (by simp at hlen ⊢; omega) hacc
      · cases rest with
        | nil => exact ⟨r, hacc⟩
        | cons f rest2 =>
          exact ih rest2 _ a r (by simp at hlen ⊢; omega) hacc
      · exact ih rest _ a (r ++ [t]) (by simp at hlen ⊢; omega) (by simp [hacc])

lemma rawParse_args_head (t : List Char) (ts : List (List Char)) :
    ∃ r2, (rawParse (t :: ts)).args = t :: r2 :=
  scanTokens_args_head ts.length ts _ t [] le_rfl rfl

lemma parseCommand_args_head (fg : Bool) (input : List Char) (t : List Char)
    (ts : List (List Char)) (h : tokenize (stripAmp fg input).1 = t :: ts) :
    ∃ r2, (parseCommand fg input).args = t :: r2 := by
  obtain ⟨r2, hr2⟩ := rawParse_args_head t ts
  exact ⟨r2, by rw [parseCommand_args, h, hr2]⟩

lemma dispatchActions_noop_of_args_nil (fg : Bool) (input : List Char)
    (h : (parseCommand fg input).args = []) :
    dispatchActions fg input = ([Action.reap], true) := by
  simp [dispatchActions, h]

lemma dispatchActions_noop_of_hash (fg : Bool) (input : List Char) (t : List Char)
    (r2 : List (List Char)) (h : (parseCommand fg input).args = t :: r2)
    (hh : t.head? = some '#') :
    dispatchActions fg input = ([Action.reap], true) := by
  simp [dispatchActions, h, hh]

/-- Claim C6: for every input line that is empty or only whitespace
(no first token exists) or whose first token starts with `#`, the
main loop performs no built-in dispatch and launches no process: the
only action taken is the background-job reaping pass, and the loop
continues to the next prompt. -/
theorem claim_c6 (fg : Bool) (input : List Char)
    (h : input = [] ∨ (∀ c ∈ input, c = ' ')
       ∨ ∃ t ts, tokenize input = t :: ts ∧ t.head? = some '#') :
    dispatchActions fg input = ([Action.reap], true) := by
  rcases h with rfl | hsp | ⟨t, ts, htok, thead⟩
  · exact dispatchActions_noop_of_args_nil fg [] (by rw [parseCommand_args]; rfl)
  · have hne : ¬(input.getLast? = some '&') := by
      intro heq
      have h1 := hsp '&' (List.mem_of_getLast?_eq_some heq)
      exact absurd h1 (by decide)
    have hstrip : (stripAmp fg input).1 = input := by simp [stripAmp, hne]
    apply dispatchActions_noop_of_args_nil
    rw [parseCommand_args, hstrip, tokenize_all_spaces input hsp]
    rfl
  · obtain ⟨c, rest', hdrop, hteq⟩ := tokenize_first_token input t ts htok
    have hc : c = '#' := by
      rw [hteq] at thead
      simpa using thead
    subst hc
    by_cases hamp : input.getLast? = some '&'
    · have hstrip : (stripAmp fg input).1 = input.dropLast := by simp [stripAmp, hamp]
      have hsplit : input = input.takeWhile (fun x => x == ' ') ++ ('#' :: rest') := by
        conv_lhs => rw [← List.takeWhile_append_dropWhile (fun x => x == ' ') input]
        rw [hdrop]
      have hpre : ∀ x ∈ input.takeWhile (fun x => x == ' '), x = ' ' := by
        intro x hx
        simpa using List.mem_takeWhile_imp hx
      have hrest_ne : rest' ≠ [] := by
        intro h0
        subst h0
        rw [hsplit, List.getLast?_concat] at hamp
        simp at hamp
      have hdl : input.dropLast =
          input.takeWhile (fun x => x == ' ') ++ ('#' :: rest'.dropLast) := by
        conv_lhs => rw [hsplit]
        rw [List.dropLast_append_cons, List.dropLast_cons_of_ne_nil hrest_ne]
      have hdrop2 : input.dropLast.dropWhile (fun x => x == ' ') = '#' :: rest'.dropLast := by
        rw [hdl, dropWhile_spaces_append _ _ hpre, List.dropWhile_cons]
        simp
      obtain ⟨ts2, hts2⟩ := tokenize_of_dropWhile input.dropLast '#' rest'.dropLast hdrop2
      obtain ⟨r2, hargs⟩ := parseCommand_args_head fg input _ _ (by rw [hstrip]; exact hts2)
      exact dispatchActions_noop_of_hash fg input _ r2 hargs rfl
    · have hstrip : (stripAmp fg input).1 = input := by simp [stripAmp, hamp]
      obtain ⟨r2, hargs⟩ := parseCommand_args_head fg input t ts (by rw [hstrip]; exact htok)
      exact dispatchActions_noop_of_hash fg input t r2 hargs thead

/-- Witness for claim C6: the concrete comment line `# comment`, a
whitespace-only line, and a comment line ending in `&`. -/
theorem claim_c6_witness :
    dispatchActions false "# comment".data = ([Action.reap], true)
  ∧ dispatchActions true "   ".data = ([Action.reap], true)
  ∧ dispatchActions false "# comment &".data = ([Action.reap], true) := by
  refine ⟨?_, ?_, ?_⟩
  · exact claim_c6 false "# comment".data
      (Or.inr (Or.inr ⟨"#".data, ["comment".data], by decide, rfl⟩))
  · exact claim_c6 true "   ".data (Or.inr (Or.inl (by decide)))
  · exact claim_c6 false "# comment &".data
      (Or.inr (Or.inr ⟨"#".data, ["comment".data, "&".data], by decide, rfl⟩))
